import Mathlib

/-!
# Verification of `urwid_extended`

Shallow embedding of the two components of the `urwid_extended` package:

* `SortedFocusListWalker` (src/urwid_extended/listbox.py): a list walker that
  keeps its contents sorted under a user-supplied `sorting_key` and `reverse`
  direction flag.
* `SearchableWidgetWrapper` (src/urwid_extended/wrapper.py): a widget wrapper
  implementing incremental prefix search over the labels of the wrapped
  container's items.

Python comparables are modelled by an arbitrary linearly ordered type `K`;
items are an arbitrary type `α`.  Python's `sorted` (a stable sort) is
modelled by `List.insertionSort` with the direction-adjusted non-strict
comparison, which is extensionally equal to any stable sort.  Strings are
modelled as `List Char`.
-/

namespace UrwidExtended

/-! ## Definitions: SortedFocusListWalker (listbox.py) -/

/-- Direction-adjusted non-strict comparison on sorting keys: `a` may come
before `b` in a list sorted with `key`/`rev` (ascending when `rev = false`,
descending when `rev = true`). -/
def keyLEb {α K : Type} [LinearOrder K] (key : α → K) (rev : Bool) (a b : α) : Bool :=
  if rev then decide (key b ≤ key a) else decide (key a ≤ key b)

/-- `SortedBy key rev l`: every adjacent pair of `l` is ordered under the
direction-adjusted comparison (the spec's sort invariant, stated on adjacent
pairs). -/
def SortedBy {α K : Type} [LinearOrder K] (key : α → K) (rev : Bool) (l : List α) : Prop :=
  List.Chain' (fun a b => keyLEb key rev a b = true) l

/-- The loop condition of `SortedFocusListWalker.add`:
`(self.sorting_key(item) > new_value) ^ self.reverse` for an existing item `y`
and the new item `x`. -/
def addCond {α K : Type} [LinearOrder K] (key : α → K) (rev : Bool) (x y : α) : Bool :=
  (decide (key y > key x)).xor rev

/-- Contents of `SortedFocusListWalker.add`: scan the current items from index
0 and insert the new item before the first item satisfying `addCond`
(`super().insert(index, new_item)`); append at the end when no item satisfies
it (`super().append(new_item)`). -/
def add {α K : Type} [LinearOrder K] (key : α → K) (rev : Bool) (x : α) : List α → List α
  | [] => [x]
  | y :: l => if addCond key rev x y then x :: y :: l else y :: add key rev x l

/-- Python's built-in `sorted(contents, key=key, reverse=rev)`, a stable sort
under the direction-adjusted comparison; modelled by `List.insertionSort`,
which is stable for this total preorder. -/
def pySorted {α K : Type} [LinearOrder K] (key : α → K) (rev : Bool) (l : List α) : List α :=
  l.insertionSort (fun a b => keyLEb key rev a b = true)

/-- Contents of `SortedFocusListWalker.extend`: sort the new items by the
stored key/direction, then `add` each one in that order. -/
def extend {α K : Type} [LinearOrder K] (key : α → K) (rev : Bool)
    (l : List α) (new_items : List α) : List α :=
  (pySorted key rev new_items).foldl (fun acc x => add key rev x acc) l

/-- The public mutations of `SortedFocusListWalker` covered by the spec's sort
invariant: `add`, `extend`, and single-index replacement (`self[i] = y`). -/
inductive MutOp (α : Type) where
  | add (x : α)
  | extend (xs : List α)
  | replace (i : Nat) (y : α)

/-- Is the operation a single-index replacement? -/
def MutOp.isReplace {α : Type} : MutOp α → Bool
  | .replace _ _ => true
  | _ => false

/-- The items a mutation introduces into the collection, in argument order. -/
def MutOp.inserted {α : Type} : MutOp α → List α
  | .add x => [x]
  | .extend xs => xs
  | .replace _ y => [y]

/-- Effect of one public mutation on the contents.  Single-index replacement
(`__setitem__` with an `int` index) performs `del self[i]` followed by
`self.add(y)`; an out-of-range index raises `IndexError` inside `del` before
any mutation, leaving the contents unchanged. -/
def applyOp {α K : Type} [LinearOrder K] (key : α → K) (rev : Bool)
    (l : List α) : MutOp α → List α
  | .add x => add key rev x l
  | .extend xs => extend key rev l xs
  | .replace i y => if i < l.length then add key rev y (l.eraseIdx i) else l

/-- Run a sequence of public mutations on the contents. -/
def runOps {α K : Type} [LinearOrder K] (key : α → K) (rev : Bool)
    (l : List α) (ops : List (MutOp α)) : List α :=
  ops.foldl (applyOp key rev) l

/-- The insertion rule exactly as the spec's claim words it: insert immediately
before the first existing element whose key is *strictly greater* than the new
key (`rev = false`) or *strictly less* than the new key (`rev = true`); append
at the end when no such element exists.  Stated from the spec's words, to be
compared against `add` (which is translated from the source). -/
def addClaimed {α K : Type} [LinearOrder K] (key : α → K) (rev : Bool) (x : α) :
    List α → List α
  | [] => [x]
  | y :: l =>
    if (if rev then decide (key y < key x) else decide (key x < key y)) = true then
      x :: y :: l
    else y :: addClaimed key rev x l

/-! ## Definitions: walker state with focus

`SortedFocusListWalker` derives from `urwid.SimpleFocusListWalker`
(a `MonitoredFocusList`), which supplies the mutable list storage and the
focus tracking.  The base-class focus behaviour is modelled here as pinned by
the doctests in src/urwid_extended/listbox.py: inserting at or before the
focus shifts the focus index up by one, deleting before the focus shifts it
down, and `sort` re-targets the focus to the index of the first element equal
to the previously focused one. -/

/-- Full state of a `SortedFocusListWalker`: the contents, the stored sorting
key and direction, and the focus index of the underlying
`SimpleFocusListWalker`. -/
structure Walker (α K : Type) where
  items : List α
  sorting_key : α → K
  reverse : Bool
  focus : Nat

/-- `SortedFocusListWalker.__init__`: sort the (possibly unsorted) contents
with the given key and direction; the underlying walker starts focused on
index 0. -/
def mkWalker {α K : Type} [LinearOrder K] (contents : List α) (key : α → K)
    (rev : Bool) : Walker α K :=
  { items := pySorted key rev contents, sorting_key := key, reverse := rev, focus := 0 }

/-- Focus adjustment of the urwid base class when one item is inserted at
`index`: an insertion at or before the focus shifts the focus up by one so it
keeps pointing at the same element (pinned by the `extend` doctests in
listbox.py). -/
def insFocus (index focus : Nat) : Nat :=
  if index ≤ focus then focus + 1 else focus

/-- Focus adjustment of the urwid base class when the item at `index` of a
list of length `len` is deleted: deletions before the focus shift it down by
one, and the result is clamped into the shortened list. -/
def delFocus (index focus len : Nat) : Nat :=
  min (if index < focus then focus - 1 else focus) (len - 2)

/-- The index at which `SortedFocusListWalker.add` inserts: the length of the
longest prefix of items failing the loop condition. -/
def addPos {α K : Type} [LinearOrder K] (key : α → K) (rev : Bool) (x : α)
    (l : List α) : Nat :=
  (l.takeWhile (fun y => !addCond key rev x y)).length

/-- `SortedFocusListWalker.add` on the full walker state: insert the new item
at `addPos` (via the base class `insert`, which adjusts the focus) or append
it at the end (which leaves the focus alone). -/
def Walker.addW {α K : Type} [LinearOrder K] (st : Walker α K) (x : α) : Walker α K :=
  { st with
    items := add st.sorting_key st.reverse x st.items
    focus :=
      if addPos st.sorting_key st.reverse x st.items < st.items.length then
        insFocus (addPos st.sorting_key st.reverse x st.items) st.focus
      else st.focus }

/-- `SortedFocusListWalker.extend` on the full walker state: `add` each new
item in the order produced by sorting them with the stored key/direction. -/
def Walker.extendW {α K : Type} [LinearOrder K] (st : Walker α K)
    (new_items : List α) : Walker α K :=
  (pySorted st.sorting_key st.reverse new_items).foldl Walker.addW st

/-- The index argument of `__setitem__` / `__delitem__`: either a single
(non-negative) integer index or a slice. -/
inductive PyIdx where
  | int (i : Nat)
  | slice
deriving DecidableEq

/-- The failure kinds raised by the walker: `NotImplementedError` (the spec's
`UnsupportedOperation`) and `IndexError`. -/
inductive PyErr where
  | notImplementedError
  | indexError
deriving DecidableEq

/-- `SortedFocusListWalker.__setitem__`: a slice index raises
`NotImplementedError` before touching anything; a single index performs
`del self[i]` followed by `self.add(y)` (an out-of-range index raises
`IndexError` inside `del`, again before any mutation).  The second component
is the exception raised, if any; the first is the state after the call. -/
def Walker.setitem {α K : Type} [LinearOrder K] (st : Walker α K) (i : PyIdx)
    (y : α) : Walker α K × Option PyErr :=
  match i with
  | .slice => (st, some .notImplementedError)
  | .int i =>
    if i < st.items.length then
      (Walker.addW
        { st with
          items := st.items.eraseIdx i
          focus := delFocus i st.focus st.items.length } y, none)
    else (st, some .indexError)

/-- `SortedFocusListWalker.__imul__`: always raises `NotImplementedError`,
before any mutation. -/
def Walker.imul {α K : Type} (st : Walker α K) (_n : Nat) : Walker α K × Option PyErr :=
  (st, some .notImplementedError)

/-- `SortedFocusListWalker.sort`: store the new key and direction, then
`super().sort(...)` (the urwid base class), which stably re-sorts the items
and re-targets the focus to the index of the first element equal to the
previously focused one; on an empty list the base class returns immediately.
Pinned by the `sort` doctests in listbox.py (focus moves 0 → 2 → 3 there). -/
def Walker.sortW {α K : Type} [LinearOrder K] [DecidableEq α] (st : Walker α K)
    (key' : α → K) (rev' : Bool) : Walker α K :=
  if st.items.isEmpty then
    { st with sorting_key := key', reverse := rev' }
  else
    { items := pySorted key' rev' st.items
      sorting_key := key'
      reverse := rev'
      focus :=
        match st.items[st.focus]? with
        | some v => (pySorted key' rev' st.items).indexOf v
        | none => st.focus }

/-! ## Definitions: SearchableWidgetWrapper (wrapper.py)

The wrapper's own code runs after `key = super().keypress(size, key)`, i.e.
after the wrapped widget got a chance to consume the key (possibly moving its
own focus).  The model therefore takes the *result* of the wrapped widget's
keypress as input, and the state is the one observed at that point.  Labels
and keys are `List Char` (Python `str`). -/

/-- State of a `SearchableWidgetWrapper` over a wrapped container: the
container's items in iteration order (`WidgetContainerListContentsMixin`
iterates indices 0 upward), the `looked_field` label function, the wrapped
widget's focus index, and the accumulated search prefix. -/
structure SearchWrapper (α : Type) where
  items : List α
  looked_field : α → List Char
  focus : Nat
  search : List Char

/-- Index of the first element satisfying `p`, scanning from index 0 (the
`for index in self._w.__iter__(): ... break` loop). -/
def findFirst {α : Type} (p : α → Bool) : List α → Option Nat
  | [] => none
  | x :: l => if p x then some 0 else (findFirst p l).map (· + 1)

/-- `SearchableWidgetWrapper._set_search`: scan the items in iteration order;
at the first item whose label starts with `new_search`, commit the new search
string, move the focus there and stop; if no item matches, change nothing. -/
def SearchWrapper.set_search {α : Type} (st : SearchWrapper α)
    (new_search : List Char) : SearchWrapper α :=
  match findFirst (fun item => new_search.isPrefixOf (st.looked_field item)) st.items with
  | some index => { st with search := new_search, focus := index }
  | none => st

/-- The urwid name of the backspace key, `'backspace'`. -/
def backspaceKey : List Char := ['b', 'a', 'c', 'k', 's', 'p', 'a', 'c', 'e']

/-- Result of `super().keypress(size, key)`: either the wrapped widget
consumed the key (`None` in Python) or it returned the remaining key. -/
inductive KeyResult where
  | consumed
  | key (k : List Char)

/-- `SearchableWidgetWrapper.keypress` after the `super().keypress` call,
whose result it takes as input:
* key consumed by the wrapped widget: clear the search, return `None`;
* `'backspace'`: if the search is non-empty assign `search[:-1]` through the
  `search` property (`_set_search`); fall through returning `None`;
* a one-character key: assign `search + key` through the property; fall
  through returning `None`;
* any other key: clear the search and return the key. -/
def SearchWrapper.keypress {α : Type} (st : SearchWrapper α) (k : KeyResult) :
    SearchWrapper α × Option (List Char) :=
  match k with
  | .consumed => ({ st with search := [] }, none)
  | .key k =>
    if k = backspaceKey then
      (if st.search.isEmpty then st else st.set_search st.search.dropLast, none)
    else if k.length = 1 then
      (st.set_search (st.search ++ k), none)
    else
      ({ st with search := [] }, some k)

/-- A freshly constructed `SearchableWidgetWrapper`: empty search, wrapped
widget focused on index 0 (the `urwid.Pile` default in the doctests). -/
def mkWrapper {α : Type} (items : List α) (f : α → List Char) : SearchWrapper α :=
  { items := items, looked_field := f, focus := 0, search := [] }

/-- The wrapper state after a sequence of keypress events. -/
def reach {α : Type} (st : SearchWrapper α) (ks : List KeyResult) : SearchWrapper α :=
  ks.foldl (fun s k => (s.keypress k).1) st

/-! ## Concrete instances used by counterexamples and witnesses -/

/-- A two-element walker over pairs, sorted by the first component. -/
def cexWalker : Walker (Nat × Nat) Nat :=
  mkWalker [(1, 5), (2, 3)] Prod.fst false

/-- The labels of the doctest in wrapper.py: `['abc','aab','aaa','bcd','bdd']`. -/
def demoLabels : List (List Char) :=
  [String.toList "abc", String.toList "aab", String.toList "aaa",
   String.toList "bcd", String.toList "bdd"]

/-- A wrapper over the doctest labels, with the identity label function. -/
def demoWrapper : SearchWrapper (List Char) :=
  mkWrapper demoLabels (fun l => l)

/-- The doctest wrapper after pressing `'b'` (unconsumed): a reachable state
with a non-empty search. -/
def demoWrapperB : SearchWrapper (List Char) :=
  reach demoWrapper [KeyResult.key ['b']]

/-! ## Basic lemmas on the comparison and on `add` -/

theorem keyLEb_total {α K : Type} [LinearOrder K] (key : α → K) (rev : Bool) (a b : α) :
    keyLEb key rev a b = true ∨ keyLEb key rev b a = true := by
  unfold keyLEb
  cases rev <;> simp <;> exact le_total _ _

theorem keyLEb_trans {α K : Type} [LinearOrder K] {key : α → K} {rev : Bool} {a b c : α}
    (h₁ : keyLEb key rev a b = true) (h₂ : keyLEb key rev b c = true) :
    keyLEb key rev a c = true := by
  unfold keyLEb at h₁ h₂ ⊢
  cases rev <;> simp_all
  · exact le_trans h₁ h₂
  · exact le_trans h₂ h₁

theorem keyLEb_key_eq {α K : Type} [LinearOrder K] {key : α → K} {rev : Bool} {a b : α}
    (h₁ : keyLEb key rev a b = true) (h₂ : keyLEb key rev b a = true) :
    key a = key b := by
  unfold keyLEb at h₁ h₂
  cases rev <;> simp_all
  · exact le_antisymm h₁ h₂
  · exact le_antisymm h₂ h₁

/-- Failing the loop condition means the existing item may stay before the new
item. -/
theorem keyLEb_of_not_addCond {α K : Type} [LinearOrder K] {key : α → K} {rev : Bool}
    {x y : α} (h : addCond key rev x y = false) : keyLEb key rev y x = true := by
  unfold addCond at h
  unfold keyLEb
  cases rev <;> simp_all
  exact le_of_lt h

/-- Passing the loop condition means the new item may come before the existing
item. -/
theorem keyLEb_of_addCond {α K : Type} [LinearOrder K] {key : α → K} {rev : Bool}
    {x y : α} (h : addCond key rev x y = true) : keyLEb key rev x y = true := by
  unfold addCond at h
  unfold keyLEb
  cases rev <;> simp_all
  exact le_of_lt h

/-- An element skipped over by `orderedInsert` (the stable-sort insertion) has
a strictly different key from the inserted one: used for the stability
analysis. -/
theorem key_ne_of_keyLEb_false {α K : Type} [LinearOrder K] {key : α → K} {rev : Bool}
    {x y : α} (h : keyLEb key rev x y = false) : key x ≠ key y := by
  unfold keyLEb at h
  cases rev <;> simp_all
  · exact ne_of_gt h
  · exact ne_of_lt h

theorem sortedBy_iff_pairwise {α K : Type} [LinearOrder K] {key : α → K} {rev : Bool}
    {l : List α} :
    SortedBy key rev l ↔ l.Pairwise (fun a b => keyLEb key rev a b = true) := by
  haveI : IsTrans α (fun a b => keyLEb key rev a b = true) :=
    ⟨fun _ _ _ h₁ h₂ => keyLEb_trans h₁ h₂⟩
  exact List.chain'_iff_pairwise

theorem sortedBy_pySorted {α K : Type} [LinearOrder K] (key : α → K) (rev : Bool)
    (l : List α) : SortedBy key rev (pySorted key rev l) := by
  haveI : IsTrans α (fun a b => keyLEb key rev a b = true) :=
    ⟨fun _ _ _ h₁ h₂ => keyLEb_trans h₁ h₂⟩
  haveI : IsTotal α (fun a b => keyLEb key rev a b = true) :=
    ⟨fun a b => keyLEb_total key rev a b⟩
  rw [sortedBy_iff_pairwise]
  exact List.sorted_insertionSort _ l

theorem perm_pySorted {α K : Type} [LinearOrder K] (key : α → K) (rev : Bool)
    (l : List α) : List.Perm (pySorted key rev l) l :=
  List.perm_insertionSort _ l

theorem add_perm {α K : Type} [LinearOrder K] (key : α → K) (rev : Bool) (x : α) :
    ∀ l : List α, List.Perm (add key rev x l) (x :: l)
  | [] => List.Perm.refl _
  | y :: l => by
    unfold add
    split
    · exact List.Perm.refl _
    · exact ((add_perm key rev x l).cons y).trans (List.Perm.swap x y l)

theorem mem_add {α K : Type} [LinearOrder K] {key : α → K} {rev : Bool} {x a : α}
    {l : List α} (h : a ∈ add key rev x l) : a = x ∨ a ∈ l := by
  have := (add_perm key rev x l).mem_iff.mp h
  simpa using this

theorem sortedBy_add {α K : Type} [LinearOrder K] {key : α → K} {rev : Bool} (x : α)
    {l : List α} (h : SortedBy key rev l) : SortedBy key rev (add key rev x l) := by
  rw [sortedBy_iff_pairwise] at h ⊢
  induction l with
  | nil => simp [add]
  | cons y l ih =>
    rw [List.pairwise_cons] at h
    obtain ⟨hy, hl⟩ := h
    unfold add
    split
    case isTrue hc =>
      rw [List.pairwise_cons]
      refine ⟨?_, List.pairwise_cons.mpr ⟨hy, hl⟩⟩
      intro b hb
      rcases List.mem_cons.mp hb with rfl | hb
      · exact keyLEb_of_addCond hc
      · exact keyLEb_trans (keyLEb_of_addCond hc) (hy b hb)
    case isFalse hc =>
      rw [List.pairwise_cons]
      refine ⟨?_, ih hl⟩
      intro b hb
      rcases mem_add hb with rfl | hb
      · exact keyLEb_of_not_addCond (Bool.eq_false_iff.mpr hc)
      · exact hy b hb

theorem sortedBy_eraseIdx {α K : Type} [LinearOrder K] {key : α → K} {rev : Bool}
    {l : List α} (i : Nat) (h : SortedBy key rev l) :
    SortedBy key rev (l.eraseIdx i) := by
  rw [sortedBy_iff_pairwise] at h ⊢
  exact h.sublist (List.eraseIdx_sublist l i)

theorem sortedBy_foldl_add {α K : Type} [LinearOrder K] {key : α → K} {rev : Bool} :
    ∀ (ys : List α) {l : List α}, SortedBy key rev l →
      SortedBy key rev (ys.foldl (fun acc x => add key rev x acc) l)
  | [], _, h => h
  | y :: ys, l, h => by
    simpa using sortedBy_foldl_add ys (sortedBy_add y h)

theorem sortedBy_extend {α K : Type} [LinearOrder K] {key : α → K} {rev : Bool}
    {l : List α} (xs : List α) (h : SortedBy key rev l) :
    SortedBy key rev (extend key rev l xs) :=
  sortedBy_foldl_add _ h

theorem sortedBy_applyOp {α K : Type} [LinearOrder K] {key : α → K} {rev : Bool}
    {l : List α} (op : MutOp α) (h : SortedBy key rev l) :
    SortedBy key rev (applyOp key rev l op) := by
  cases op with
  | add x => exact sortedBy_add x h
  | extend xs => exact sortedBy_extend xs h
  | replace i y =>
    simp only [applyOp]
    split
    · exact sortedBy_add y (sortedBy_eraseIdx i h)
    · exact h

theorem sortedBy_runOps {α K : Type} [LinearOrder K] {key : α → K} {rev : Bool} :
    ∀ (ops : List (MutOp α)) {l : List α}, SortedBy key rev l →
      SortedBy key rev (runOps key rev l ops)
  | [], _, h => h
  | op :: ops, l, h => by
    simpa [runOps] using sortedBy_runOps ops (sortedBy_applyOp op h)

/-! ## Sanity checks mirroring the doctests in listbox.py -/

example : (mkWalker [1, 4, 2, 7, 3] (fun n : Nat => n) false).items = [1, 2, 3, 4, 7] := by
  decide

example : add (fun n : Nat => n) false 5 [1, 2, 3, 4, 7] = [1, 2, 3, 4, 5, 7] := by decide

example : (mkWalker [1, 4, 7, 3] (fun n : Nat => n) true).items = [7, 4, 3, 1] := by decide

example :
    add (Prod.snd : Nat × Nat → Nat) true (100, 4) [(1, 10), (0, 7), (4, 2)]
      = [(1, 10), (0, 7), (100, 4), (4, 2)] := by decide

example :
    let sw := (mkWalker [1, 10] (fun n : Int => n) false).extendW [0, 2, -10, 14]
    sw.items = [-10, 0, 1, 2, 10, 14] ∧ sw.focus = 2 := by decide

/-! ## The insertion rule of `add` -/

theorem addCond_eq {α K : Type} [LinearOrder K] (key : α → K) (rev : Bool) (x y : α) :
    addCond key rev x y
      = (if rev then decide (key y ≤ key x) else decide (key x < key y)) := by
  unfold addCond
  cases rev
  · simp [gt_iff_lt]
  · by_cases h : key x < key y
    · have h' : ¬ key y ≤ key x := not_le.mpr h
      simp [gt_iff_lt, h, h']
    · have h' : key y ≤ key x := not_lt.mp h
      simp [gt_iff_lt, h, h']

theorem add_eq_takeWhile_dropWhile {α K : Type} [LinearOrder K] (key : α → K)
    (rev : Bool) (x : α) :
    ∀ l : List α,
      add key rev x l =
        l.takeWhile (fun y => !addCond key rev x y)
          ++ x :: l.dropWhile (fun y => !addCond key rev x y)
  | [] => rfl
  | y :: l => by
    rw [add, List.takeWhile_cons, List.dropWhile_cons]
    by_cases hc : addCond key rev x y = true
    · simp [hc]
    · simp only [Bool.not_eq_true] at hc
      simp [hc, add_eq_takeWhile_dropWhile key rev x l]

/-! ## Claim theorems C1 and C2 -/

/-- C1: after construction from an arbitrary sequence and any sequence of
public mutations (`add`, `extend`, single-index replacement), the contents are
sorted under the current sorting key and direction: every adjacent pair is
ordered by the direction-adjusted comparison.  Since the mutation sequence is
universally quantified, the invariant holds after each operation of any
sequence. -/
theorem C1_sort_invariant {α K : Type} [LinearOrder K] (key : α → K) (rev : Bool)
    (init : List α) (ops : List (MutOp α)) :
    SortedBy key rev (runOps key rev (pySorted key rev init) ops) :=
  sortedBy_runOps ops (sortedBy_pySorted key rev init)

/-- C2 (counterexample): on the sorted descending state `[(5, 0)]` (keys are
the first components), adding `(5, 1)` whose key equals the existing key
*prepends* the item, while the claim's rule ("insert before the first element
whose key is strictly less, else append") would append it. -/
theorem C2_counterexample :
    SortedBy (Prod.fst : Nat × Nat → Nat) true [(5, 0)] ∧
    add (Prod.fst : Nat × Nat → Nat) true (5, 1) [(5, 0)] = [(5, 1), (5, 0)] ∧
    addClaimed (Prod.fst : Nat × Nat → Nat) true (5, 1) [(5, 0)] = [(5, 0), (5, 1)] ∧
    add (Prod.fst : Nat × Nat → Nat) true (5, 1) [(5, 0)]
      ≠ addClaimed (Prod.fst : Nat × Nat → Nat) true (5, 1) [(5, 0)] :=
  ⟨by simp [SortedBy], by decide, by decide, by decide⟩

/-- C2 (amended): `add` inserts the new item immediately before the first
existing element whose key is strictly greater than the new key when
`reverse = false`, or *less than or equal to* the new key when
`reverse = true`, and appends at the end when no such element exists (the
prefix kept in place is exactly the longest prefix of elements failing that
test). -/
theorem C2_add_insertion_point {α K : Type} [LinearOrder K] (key : α → K)
    (rev : Bool) (x : α) (l : List α) :
    add key rev x l =
      l.takeWhile (fun y => !(if rev then decide (key y ≤ key x) else decide (key x < key y)))
        ++ x :: l.dropWhile
            (fun y => !(if rev then decide (key y ≤ key x) else decide (key x < key y))) := by
  have h := add_eq_takeWhile_dropWhile key rev x l
  simpa only [addCond_eq] using h

/-! ## Multiset preservation and uniqueness of the sorted arrangement -/

theorem foldl_add_perm {α K : Type} [LinearOrder K] (key : α → K) (rev : Bool) :
    ∀ (ys l : List α),
      List.Perm (ys.foldl (fun acc x => add key rev x acc) l) (l ++ ys)
  | [], l => by simp
  | y :: ys, l => by
    simp only [List.foldl_cons]
    refine (foldl_add_perm key rev ys (add key rev y l)).trans ?_
    refine (((add_perm key rev y l).append_right ys).trans ?_)
    exact List.perm_middle.symm

theorem extend_perm {α K : Type} [LinearOrder K] (key : α → K) (rev : Bool)
    (l xs : List α) : List.Perm (extend key rev l xs) (l ++ xs) :=
  (foldl_add_perm key rev (pySorted key rev xs) l).trans
    ((perm_pySorted key rev xs).append_left l)

/-- Two lists that are permutations of each other, both sorted under the same
direction-adjusted comparison, and whose elements are determined by their keys
(equal keys only between equal elements), are equal. -/
theorem eq_of_perm_of_sortedBy {α K : Type} [LinearOrder K] {key : α → K} {rev : Bool} :
    ∀ {l₁ l₂ : List α}, List.Perm l₁ l₂ → SortedBy key rev l₁ → SortedBy key rev l₂ →
      l₁.Pairwise (fun a b => key a = key b → a = b) → l₁ = l₂ := by
  intro l₁
  induction l₁ with
  | nil =>
    intro l₂ hp _ _ _
    exact (hp.symm.eq_nil).symm
  | cons a t₁ ih =>
    intro l₂ hp hs₁ hs₂ hinj
    rw [sortedBy_iff_pairwise] at hs₁ hs₂
    cases l₂ with
    | nil => exact hp.eq_nil
    | cons b t₂ =>
      rw [List.pairwise_cons] at hs₁ hs₂ hinj
      obtain ⟨ha₁, hs₁t⟩ := hs₁
      obtain ⟨hb₂, hs₂t⟩ := hs₂
      obtain ⟨hinja, hinjt⟩ := hinj
      have hab : a = b := by
        rcases List.mem_cons.mp (hp.subset (List.mem_cons_self a t₁)) with h | hat₂
        · exact h
        · rcases List.mem_cons.mp (hp.symm.subset (List.mem_cons_self b t₂)) with h | hbt₁
          · exact h.symm
          · exact hinja b hbt₁ (keyLEb_key_eq (ha₁ b hbt₁) (hb₂ a hat₂))
      subst hab
      have ht : t₁ = t₂ := by
        refine ih hp.cons_inv ?_ ?_ hinjt
        · rw [sortedBy_iff_pairwise]; exact hs₁t
        · rw [sortedBy_iff_pairwise]; exact hs₂t
      rw [ht]

/-! ## Claim C4: order-independence of `extend` -/

/-- C4 (counterexample): with two distinct items of equal key, `extend` from
the empty (hence sorted) state differs from adding the same items one at a
time in the swapped order, so the final contents do depend on presentation
order. -/
theorem C4_counterexample :
    List.Perm [((0 : Nat), (2 : Nat)), (0, 1)] [((0 : Nat), (1 : Nat)), (0, 2)] ∧
    extend (Prod.fst : Nat × Nat → Nat) false [] [(0, 1), (0, 2)] = [(0, 1), (0, 2)] ∧
    [((0 : Nat), (2 : Nat)), (0, 1)].foldl
        (fun acc x => add (Prod.fst : Nat × Nat → Nat) false x acc) [] = [(0, 2), (0, 1)] ∧
    extend (Prod.fst : Nat × Nat → Nat) false [] [(0, 1), (0, 2)]
      ≠ [((0 : Nat), (2 : Nat)), (0, 1)].foldl
          (fun acc x => add (Prod.fst : Nat × Nat → Nat) false x acc) [] := by
  refine ⟨?_, by decide, by decide, by decide⟩
  decide

/-- C4 (amended): on a sorted state, and provided the sorting key determines
the item among the existing and new items (no two distinct involved items
share a key), `extend xs` yields the same final contents as adding the items
of any permutation `xs'` of `xs` one at a time. -/
theorem C4_extend_order_independent {α K : Type} [LinearOrder K] (key : α → K)
    (rev : Bool) (l xs xs' : List α) (hs : SortedBy key rev l)
    (hperm : List.Perm xs' xs)
    (hinj : (l ++ xs).Pairwise fun a b => key a = key b → a = b) :
    extend key rev l xs = xs'.foldl (fun acc x => add key rev x acc) l := by
  have hsymm : ∀ {a b : α}, (key a = key b → a = b) → (key b = key a → b = a) :=
    fun hab h => (hab h.symm).symm
  refine eq_of_perm_of_sortedBy ?_ (sortedBy_extend xs hs) (sortedBy_foldl_add xs' hs) ?_
  · refine (extend_perm key rev l xs).trans ?_
    exact ((hperm.append_left l).symm).trans (foldl_add_perm key rev xs' l).symm
  · exact ((extend_perm key rev l xs).pairwise_iff hsymm).mpr hinj

/-- C4 witness: a concrete sorted state `[(1, 0)]`, new items with pairwise
distinct keys, and a nontrivial permutation of them. -/
theorem C4_witness :
    SortedBy (Prod.fst : Nat × Nat → Nat) false [(1, 0)] ∧
    List.Perm [((2 : Nat), (0 : Nat)), (0, 0)] [((0 : Nat), (0 : Nat)), (2, 0)] ∧
    ([((1 : Nat), (0 : Nat))] ++ [(0, 0), (2, 0)]).Pairwise
      (fun a b : Nat × Nat => a.1 = b.1 → a = b) ∧
    extend (Prod.fst : Nat × Nat → Nat) false [(1, 0)] [(0, 0), (2, 0)]
      = [((2 : Nat), (0 : Nat)), (0, 0)].foldl
          (fun acc x => add (Prod.fst : Nat × Nat → Nat) false x acc) [(1, 0)] :=
  ⟨by simp [SortedBy], by decide, by decide,
    C4_extend_order_independent _ _ _ _ _ (by simp [SortedBy]) (by decide) (by decide)⟩

/-! ## Stability: the equal-key subsequence of the contents

Stability is expressed through `filter`: for each key value `k`, the sublist
of elements whose key is `k` in the final contents equals the sublist of
key-`k` elements of the insertion-order sequence. -/

theorem filter_orderedInsert_key {α K : Type} [LinearOrder K] (key : α → K)
    (rev : Bool) (k : K) (x : α) :
    ∀ l : List α,
      (List.orderedInsert (fun a b => keyLEb key rev a b = true) x l).filter
          (fun a => decide (key a = k)) =
        if key x = k then x :: l.filter (fun a => decide (key a = k))
        else l.filter (fun a => decide (key a = k))
  | [] => by
    by_cases h : key x = k <;> simp [List.orderedInsert, h]
  | y :: l => by
    rw [List.orderedInsert]
    split
    case isTrue h =>
      by_cases hx : key x = k <;> simp [List.filter_cons, hx]
    case isFalse h =>
      have hne : key x ≠ key y :=
        key_ne_of_keyLEb_false (Bool.eq_false_iff.mpr h)
      have ih := filter_orderedInsert_key key rev k x l
      by_cases hy : key y = k
      · have hx : ¬ key x = k := fun hxk => hne (hxk.trans hy.symm)
        simp [List.filter_cons, hy, hx, ih]
      · by_cases hx : key x = k <;> simp [List.filter_cons, hy, hx, ih]

/-- Python's `sorted` is stable: it does not change the relative order of
elements with any given key value. -/
theorem filter_pySorted {α K : Type} [LinearOrder K] (key : α → K) (rev : Bool)
    (k : K) : ∀ l : List α,
      (pySorted key rev l).filter (fun a => decide (key a = k)) =
        l.filter (fun a => decide (key a = k))
  | [] => rfl
  | a :: l => by
    have ih := filter_pySorted key rev k l
    unfold pySorted at ih ⊢
    rw [List.insertionSort, filter_orderedInsert_key, ih]
    by_cases h : key a = k <;> simp [List.filter_cons, h]

/-- In ascending mode, on a sorted state `add` places the new item after all
existing elements of equal key. -/
theorem filter_add_false {α K : Type} [LinearOrder K] (key : α → K) (k : K) (x : α) :
    ∀ {l : List α}, SortedBy key false l →
      (add key false x l).filter (fun a => decide (key a = k)) =
        l.filter (fun a => decide (key a = k)) ++ if key x = k then [x] else [] := by
  intro l
  induction l with
  | nil =>
    intro _
    by_cases h : key x = k <;> simp [add, h]
  | cons y l ih =>
    intro hs
    rw [sortedBy_iff_pairwise, List.pairwise_cons] at hs
    obtain ⟨hy, hl⟩ := hs
    rw [add]
    by_cases hc : addCond key false x y = true
    · rw [if_pos hc]
      have hxy : key x < key y := by
        rw [addCond_eq] at hc
        simpa using hc
      by_cases hx : key x = k
      · have hnil : (y :: l).filter (fun a => decide (key a = k)) = [] := by
          rw [List.filter_eq_nil_iff]
          intro b hb
          rcases List.mem_cons.mp hb with rfl | hb
          · simp
            exact fun hbk => absurd (hx.trans hbk.symm) (ne_of_lt hxy)
          · have hyb : key y ≤ key b := by
              have := hy b hb
              unfold keyLEb at this
              simpa using this
            simp
            intro hbk
            exact absurd (hx.trans hbk.symm) (ne_of_lt (lt_of_lt_of_le hxy hyb))
        rw [List.filter_cons, if_pos (by simp [hx]), hnil, if_pos hx]
        simp
      · simp [List.filter_cons, hx]
    · rw [if_neg hc]
      have hsl : SortedBy key false l := by
        rw [sortedBy_iff_pairwise]; exact hl
      rw [List.filter_cons, List.filter_cons]
      by_cases hyk : key y = k <;> simp [hyk, ih hsl]

theorem filter_foldl_add_false {α K : Type} [LinearOrder K] (key : α → K) (k : K) :
    ∀ (ys : List α) {l : List α}, SortedBy key false l →
      ((ys.foldl (fun acc x => add key false x acc) l).filter
          (fun a => decide (key a = k))) =
        l.filter (fun a => decide (key a = k)) ++ ys.filter (fun a => decide (key a = k))
  | [], _, _ => by simp
  | y :: ys, l, hs => by
    simp only [List.foldl_cons]
    rw [filter_foldl_add_false key k ys (sortedBy_add y hs),
      filter_add_false key k y hs, List.filter_cons]
    by_cases h : key y = k <;> simp [h]

theorem filter_extend_false {α K : Type} [LinearOrder K] (key : α → K) (k : K)
    {l : List α} (xs : List α) (hs : SortedBy key false l) :
    (extend key false l xs).filter (fun a => decide (key a = k)) =
      l.filter (fun a => decide (key a = k)) ++ xs.filter (fun a => decide (key a = k)) := by
  unfold extend
  rw [filter_foldl_add_false key k (pySorted key false xs) hs, filter_pySorted]

theorem filter_applyOp_false {α K : Type} [LinearOrder K] (key : α → K) (k : K)
    {l : List α} (op : MutOp α) (hop : op.isReplace = false) (hs : SortedBy key false l) :
    (applyOp key false l op).filter (fun a => decide (key a = k)) =
      l.filter (fun a => decide (key a = k))
        ++ op.inserted.filter (fun a => decide (key a = k)) := by
  cases op with
  | add x =>
    rw [applyOp, MutOp.inserted, filter_add_false key k x hs, List.filter_cons]
    by_cases h : key x = k <;> simp [h]
  | extend xs => exact filter_extend_false key k xs hs
  | replace i y => simp [MutOp.isReplace] at hop

theorem filter_runOps_false {α K : Type} [LinearOrder K] (key : α → K) (k : K) :
    ∀ (ops : List (MutOp α)) {l : List α},
      (∀ op ∈ ops, op.isReplace = false) → SortedBy key false l →
      (runOps key false l ops).filter (fun a => decide (key a = k)) =
        l.filter (fun a => decide (key a = k))
          ++ ((ops.map MutOp.inserted).flatten).filter (fun a => decide (key a = k))
  | [], _, _, _ => by simp [runOps]
  | op :: ops, l, hops, hs => by
    have h₁ : op.isReplace = false := hops op (List.mem_cons_self op ops)
    have h₂ : ∀ o ∈ ops, o.isReplace = false :=
      fun o ho => hops o (List.mem_cons_of_mem op ho)
    have hstep : runOps key false l (op :: ops)
        = runOps key false (applyOp key false l op) ops := rfl
    rw [hstep, filter_runOps_false key k ops h₂ (sortedBy_applyOp op hs),
      filter_applyOp_false key k op h₁ hs]
    simp [List.filter_append, List.append_assoc]

/-! ## Claim C3: stability -/

/-- C3 (counterexample): with `reverse=True`, an item added later with a key
equal to an existing item's key is placed *before* it, not after. -/
theorem C3_counterexample :
    Prod.fst ((5 : Nat), (1 : Nat)) = Prod.fst ((5 : Nat), (0 : Nat)) ∧
    runOps (Prod.fst : Nat × Nat → Nat) true (pySorted Prod.fst true [(5, 0)])
        [MutOp.add (5, 1)] = [(5, 1), (5, 0)] ∧
    (runOps (Prod.fst : Nat × Nat → Nat) true (pySorted Prod.fst true [(5, 0)])
        [MutOp.add (5, 1)]).indexOf (5, 1)
      < (runOps (Prod.fst : Nat × Nat → Nat) true (pySorted Prod.fst true [(5, 0)])
        [MutOp.add (5, 1)]).indexOf (5, 0) := by
  refine ⟨rfl, by decide, by decide⟩

/-- C3 (amended): with `reverse=False`, for every key value `k`, the key-`k`
elements of the final contents after a constructor/add/extend sequence are
exactly the key-`k` elements of the insertion-order sequence (constructor
input first, then the arguments of each operation in order); i.e. equal-key
elements retain their relative insertion order.  With `reverse=True` this
fails (see the counterexample). -/
theorem C3_stability_ascending {α K : Type} [LinearOrder K] (key : α → K)
    (init : List α) (ops : List (MutOp α)) (k : K)
    (hops : ∀ op ∈ ops, op.isReplace = false) :
    (runOps key false (pySorted key false init) ops).filter (fun a => decide (key a = k)) =
      (init ++ (ops.map MutOp.inserted).flatten).filter (fun a => decide (key a = k)) := by
  rw [filter_runOps_false key k ops hops (sortedBy_pySorted key false init),
    filter_pySorted, List.filter_append]

/-- C3 witness: a concrete ascending run with duplicated keys across the
constructor, an `add` and an `extend`. -/
theorem C3_witness :
    (∀ op ∈ ([MutOp.add ((0 : Nat), (4 : Nat)), MutOp.extend [(1, 5), (0, 6)]] :
        List (MutOp (Nat × Nat))), op.isReplace = false) ∧
    (runOps (Prod.fst : Nat × Nat → Nat) false
        (pySorted Prod.fst false [(0, 1), (1, 2), (0, 3)])
        [MutOp.add (0, 4), MutOp.extend [(1, 5), (0, 6)]]).filter
          (fun a => decide (Prod.fst a = 0)) =
      ([(0, 1), (1, 2), (0, 3)] ++
        (([MutOp.add ((0 : Nat), (4 : Nat)), MutOp.extend [(1, 5), (0, 6)]] :
          List (MutOp (Nat × Nat))).map MutOp.inserted).flatten).filter
          (fun a => decide (Prod.fst a = 0)) :=
  ⟨by decide, C3_stability_ascending _ _ _ _ (by decide)⟩

/-! ## Claims C5 and C6: rejected operations and `sort` -/

/-- C5: assigning to a slice index and the repeat operation (`items *= n`)
always fail with `NotImplementedError` (the spec's `UnsupportedOperation`
kind), and the failure occurs before any mutation: the resulting state is
exactly the pre-call state, in all fields (contents, key function, direction
flag, focus). -/
theorem C5_unsupported_ops {α K : Type} [LinearOrder K] (st : Walker α K)
    (y : α) (n : Nat) :
    st.setitem PyIdx.slice y = (st, some PyErr.notImplementedError) ∧
    st.imul n = (st, some PyErr.notImplementedError) :=
  ⟨rfl, rfl⟩

/-- C6 (counterexample): on the non-empty walker `[(1, 5), (2, 3)]` (sorted by
first components, focus 0), `sort` by the second component moves the focus
from 0 to 1: the focus index is *not* preserved as a raw integer — it follows
the previously focused element, exactly as the `sort` doctests in listbox.py
show (focus 0 → 2 → 3 there). -/
theorem C6_counterexample :
    cexWalker.items = [(1, 5), (2, 3)] ∧ cexWalker.focus = 0 ∧
    (cexWalker.sortW Prod.snd false).items = [(2, 3), (1, 5)] ∧
    (cexWalker.sortW Prod.snd false).focus = 1 ∧
    (cexWalker.sortW Prod.snd false).focus ≠ cexWalker.focus :=
  ⟨by decide, rfl, by decide, by decide, by decide⟩

/-- C6 (amended): on a non-empty walker (with a valid focus), `sort` replaces
the stored key function and direction, stably re-sorts all current elements
(`pySorted` is the stable sort; the result is sorted and a permutation of the
contents), and re-targets the focus to the index of the first element equal to
the previously focused element: in particular the element at the new focus is
the previously focused element. -/
theorem C6_sort_retargets_focus {α K : Type} [LinearOrder K] [DecidableEq α]
    (st : Walker α K) (key' : α → K) (rev' : Bool)
    (h : st.focus < st.items.length) :
    (st.sortW key' rev').sorting_key = key' ∧
    (st.sortW key' rev').reverse = rev' ∧
    (st.sortW key' rev').items = pySorted key' rev' st.items ∧
    SortedBy key' rev' (st.sortW key' rev').items ∧
    List.Perm (st.sortW key' rev').items st.items ∧
    (st.sortW key' rev').focus
      = (pySorted key' rev' st.items).indexOf (st.items.get ⟨st.focus, h⟩) ∧
    (st.sortW key' rev').items[(st.sortW key' rev').focus]?
      = some (st.items.get ⟨st.focus, h⟩) := by
  have hne : st.items.isEmpty = false := by
    cases hi : st.items with
    | nil => rw [hi] at h; simp at h
    | cons a l => rfl
  have hget : st.items[st.focus]? = some (st.items.get ⟨st.focus, h⟩) := by
    rw [List.getElem?_eq_getElem h]
    simp
  have hsort : st.sortW key' rev' =
      { items := pySorted key' rev' st.items
        sorting_key := key'
        reverse := rev'
        focus := (pySorted key' rev' st.items).indexOf (st.items.get ⟨st.focus, h⟩) } := by
    rw [Walker.sortW, if_neg (by simp [hne]), hget]
  have hmem : st.items.get ⟨st.focus, h⟩ ∈ pySorted key' rev' st.items :=
    (perm_pySorted key' rev' st.items).mem_iff.mpr (st.items.get_mem st.focus h)
  refine ⟨by rw [hsort], by rw [hsort], by rw [hsort], ?_, ?_, by rw [hsort], ?_⟩
  · rw [hsort]; exact sortedBy_pySorted key' rev' st.items
  · rw [hsort]; exact perm_pySorted key' rev' st.items
  · rw [hsort]
    exact List.getElem?_indexOf hmem

/-- C6 witness: the two-element walker `cexWalker` with its valid focus 0. -/
theorem C6_witness :
    cexWalker.focus < cexWalker.items.length ∧
    (cexWalker.sortW Prod.snd false).items[(cexWalker.sortW Prod.snd false).focus]?
      = some (cexWalker.items.get ⟨cexWalker.focus, by decide⟩) :=
  ⟨by decide,
    (C6_sort_retargets_focus cexWalker Prod.snd false (by decide)).2.2.2.2.2.2⟩

/-! ## Lemmas on the search scan and `set_search` -/

theorem findFirst_eq_none_iff {α : Type} (p : α → Bool) :
    ∀ l : List α, findFirst p l = none ↔ ∀ x ∈ l, p x = false
  | [] => by simp [findFirst]
  | x :: l => by
    rw [findFirst]
    by_cases h : p x = true
    · simp [h]
    · rw [Bool.not_eq_true] at h
      simp [h, findFirst_eq_none_iff p l]

theorem findFirst_spec {α : Type} (p : α → Bool) :
    ∀ (l : List α) (i : Nat), findFirst p l = some i →
      ∃ hi : i < l.length,
        p (l.get ⟨i, hi⟩) = true ∧ ∀ x ∈ l.take i, p x = false
  | [], i => by simp [findFirst]
  | x :: l, i => by
    rw [findFirst]
    by_cases h : p x = true
    · rw [if_pos h]
      intro hi
      obtain rfl : i = 0 := by simpa using hi.symm
      exact ⟨Nat.succ_pos _, h, by simp⟩
    · rw [Bool.not_eq_true] at h
      rw [if_neg (by simp [h])]
      intro hsome
      obtain ⟨j, hj, rfl⟩ := Option.map_eq_some'.mp hsome
      obtain ⟨hjl, hget, htake⟩ := findFirst_spec p l j hj
      refine ⟨Nat.succ_lt_succ hjl, hget, ?_⟩
      intro z hz
      rw [List.take_succ_cons] at hz
      rcases List.mem_cons.mp hz with rfl | hz
      · exact h
      · exact htake z hz

theorem set_search_items {α : Type} (st : SearchWrapper α) (v : List Char) :
    (st.set_search v).items = st.items ∧
    (st.set_search v).looked_field = st.looked_field := by
  rw [SearchWrapper.set_search]
  cases findFirst (fun item => v.isPrefixOf (st.looked_field item)) st.items <;>
    exact ⟨rfl, rfl⟩

theorem set_search_of_no_match {α : Type} {st : SearchWrapper α} {v : List Char}
    (h : ∀ x ∈ st.items, ¬ v.isPrefixOf (st.looked_field x) = true) :
    st.set_search v = st := by
  rw [SearchWrapper.set_search]
  have hnone : findFirst (fun item => v.isPrefixOf (st.looked_field item)) st.items = none := by
    rw [findFirst_eq_none_iff]
    intro x hx
    exact Bool.eq_false_iff.mpr (h x hx)
  rw [hnone]

theorem set_search_of_match {α : Type} {st : SearchWrapper α} {v : List Char}
    (h : ∃ x ∈ st.items, v.isPrefixOf (st.looked_field x) = true) :
    (st.set_search v).search = v ∧
    ∃ hi : (st.set_search v).focus < st.items.length,
      v.isPrefixOf (st.looked_field (st.items.get ⟨(st.set_search v).focus, hi⟩)) = true ∧
      ∀ x ∈ st.items.take (st.set_search v).focus,
        v.isPrefixOf (st.looked_field x) = false := by
  rcases hfind : findFirst (fun item => v.isPrefixOf (st.looked_field item)) st.items with
    _ | i
  · rw [findFirst_eq_none_iff] at hfind
    obtain ⟨x, hx, hpx⟩ := h
    rw [hfind x hx] at hpx
    cases hpx
  · obtain ⟨hi, hget, htake⟩ := findFirst_spec _ st.items i hfind
    have hss : st.set_search v = { st with search := v, focus := i } := by
      rw [SearchWrapper.set_search, hfind]
    rw [hss]
    exact ⟨rfl, hi, hget, htake⟩

/-- Either the scan finds nothing and `set_search` is the identity, or it
commits the candidate, which then matches some item. -/
theorem set_search_cases {α : Type} (st : SearchWrapper α) (v : List Char) :
    st.set_search v = st ∨
    ((st.set_search v).search = v ∧
      ∃ x ∈ st.items, v.isPrefixOf (st.looked_field x) = true) := by
  rcases hfind : findFirst (fun item => v.isPrefixOf (st.looked_field item)) st.items with
    _ | i
  · left
    rw [SearchWrapper.set_search, hfind]
  · right
    obtain ⟨hi, hget, _⟩ := findFirst_spec _ st.items i hfind
    have hss : st.set_search v = { st with search := v, focus := i } := by
      rw [SearchWrapper.set_search, hfind]
    exact ⟨by rw [hss], st.items.get ⟨i, hi⟩, st.items.get_mem i hi, hget⟩

theorem singleton_ne_backspaceKey (c : Char) : [c] ≠ backspaceKey := by
  intro h
  simpa [backspaceKey] using congrArg List.length h

theorem keypress_single_char {α : Type} (st : SearchWrapper α) (c : Char) :
    st.keypress (KeyResult.key [c]) = (st.set_search (st.search ++ [c]), none) := by
  rw [SearchWrapper.keypress, if_neg (singleton_ne_backspaceKey c)]
  simp

theorem keypress_backspace {α : Type} (st : SearchWrapper α) :
    st.keypress (KeyResult.key backspaceKey)
      = (if st.search.isEmpty then st else st.set_search st.search.dropLast, none) := by
  rw [SearchWrapper.keypress, if_pos rfl]

/-! ## Claim C7: single-character search progression -/

/-- C7: for a single-character key `c` not consumed by the wrapped widget —
if some item's label starts with `search + c`, the search becomes `search + c`
and the focus moves to the first matching item's index in iteration order
(the focused item matches and no earlier item does); if no item's label starts
with `search + c`, the whole state (search and focus included) is unchanged. -/
theorem C7_single_char {α : Type} (st : SearchWrapper α) (c : Char) :
    ((∃ x ∈ st.items, (st.search ++ [c]).isPrefixOf (st.looked_field x) = true) →
      (st.keypress (KeyResult.key [c])).1.search = st.search ++ [c] ∧
      ∃ hi : (st.keypress (KeyResult.key [c])).1.focus < st.items.length,
        (st.search ++ [c]).isPrefixOf
            (st.looked_field
              (st.items.get ⟨(st.keypress (KeyResult.key [c])).1.focus, hi⟩)) = true ∧
        ∀ x ∈ st.items.take (st.keypress (KeyResult.key [c])).1.focus,
          (st.search ++ [c]).isPrefixOf (st.looked_field x) = false) ∧
    ((∀ x ∈ st.items, ¬ (st.search ++ [c]).isPrefixOf (st.looked_field x) = true) →
      (st.keypress (KeyResult.key [c])).1 = st) := by
  rw [keypress_single_char]
  constructor
  · intro h
    exact set_search_of_match h
  · intro h
    exact set_search_of_no_match h

/-- C7 witness: the doctest labels; pressing `'b'` from the empty search moves
focus to `'bcd'` (index 3) and commits `"b"`; pressing `'q'` matches nothing
and leaves the state unchanged. -/
theorem C7_witness :
    ((∃ x ∈ demoWrapper.items,
        (demoWrapper.search ++ ['b']).isPrefixOf (demoWrapper.looked_field x) = true) ∧
      (demoWrapper.keypress (KeyResult.key ['b'])).1.search = demoWrapper.search ++ ['b'] ∧
      (demoWrapper.keypress (KeyResult.key ['b'])).1.focus = 3) ∧
    ((∀ x ∈ demoWrapper.items,
        ¬ (demoWrapper.search ++ ['q']).isPrefixOf (demoWrapper.looked_field x) = true) ∧
      (demoWrapper.keypress (KeyResult.key ['q'])).1 = demoWrapper) :=
  ⟨⟨by decide, ((C7_single_char demoWrapper 'b').1 (by decide)).1, by decide⟩,
   ⟨by decide, (C7_single_char demoWrapper 'q').2 (by decide)⟩⟩

/-! ## Claim C8: backspace -/

/-- C8: when the search is non-empty (and, as on every reachable state over a
fixed collection, matches some item's label — the invariant of C9), backspace
always shrinks the search by one character: the shortened prefix still matches
the same item, so the re-scan performed by the `search` property setter
commits it.  When the search is empty, backspace is a no-op. -/
theorem C8_backspace {α : Type} (st : SearchWrapper α) :
    (st.search ≠ [] →
      (∃ x ∈ st.items, st.search.isPrefixOf (st.looked_field x) = true) →
      (st.keypress (KeyResult.key backspaceKey)).1.search = st.search.dropLast) ∧
    (st.search = [] → (st.keypress (KeyResult.key backspaceKey)).1 = st) := by
  rw [keypress_backspace]
  constructor
  · intro hne hmatch
    rw [if_neg (by simpa using hne)]
    obtain ⟨x, hx, hpx⟩ := hmatch
    have hdrop : st.search.dropLast.isPrefixOf (st.looked_field x) = true := by
      rw [List.isPrefixOf_iff_prefix] at hpx ⊢
      exact (List.dropLast_prefix st.search).trans hpx
    exact (set_search_of_match ⟨x, hx, hdrop⟩).1
  · intro he
    rw [if_pos (by simp [he])]

/-- C8 witness: after pressing `'b'` the search is `"b"` and matches `'bcd'`;
backspace shrinks it to the empty string.  On the fresh wrapper the search is
empty and backspace changes nothing. -/
theorem C8_witness :
    (demoWrapperB.search ≠ [] ∧
      (∃ x ∈ demoWrapperB.items,
        demoWrapperB.search.isPrefixOf (demoWrapperB.looked_field x) = true) ∧
      (demoWrapperB.keypress (KeyResult.key backspaceKey)).1.search
        = demoWrapperB.search.dropLast) ∧
    (demoWrapper.search = [] ∧
      (demoWrapper.keypress (KeyResult.key backspaceKey)).1 = demoWrapper) :=
  ⟨⟨by decide, by decide,
      (C8_backspace demoWrapperB).1 (by decide) (by decide)⟩,
   ⟨rfl, (C8_backspace demoWrapper).2 rfl⟩⟩

/-! ## Claim C9: the committed-prefix invariant -/

/-- One keypress preserves the wrapped collection, the label function, and the
invariant "the search is empty or is a prefix of some item's label". -/
theorem searchInv_keypress {α : Type} (st : SearchWrapper α) (k : KeyResult)
    (hst : st.search = [] ∨
      ∃ x ∈ st.items, st.search.isPrefixOf (st.looked_field x) = true) :
    (st.keypress k).1.items = st.items ∧
    (st.keypress k).1.looked_field = st.looked_field ∧
    ((st.keypress k).1.search = [] ∨
      ∃ x ∈ st.items, (st.keypress k).1.search.isPrefixOf (st.looked_field x) = true) := by
  cases k with
  | consumed => exact ⟨rfl, rfl, Or.inl rfl⟩
  | key k =>
    rw [SearchWrapper.keypress]
    by_cases hb : k = backspaceKey
    · rw [if_pos hb]
      by_cases he : st.search.isEmpty
      · rw [if_pos he]
        exact ⟨rfl, rfl, hst⟩
      · rw [if_neg he]
        refine ⟨(set_search_items st _).1, (set_search_items st _).2, ?_⟩
        rcases set_search_cases st st.search.dropLast with heq | ⟨hsearch, x, hx, hpx⟩
        · rw [heq]; exact hst
        · exact Or.inr ⟨x, hx, by rw [hsearch]; exact hpx⟩
    · rw [if_neg hb]
      by_cases h1 : k.length = 1
      · rw [if_pos h1]
        refine ⟨(set_search_items st _).1, (set_search_items st _).2, ?_⟩
        rcases set_search_cases st (st.search ++ k) with heq | ⟨hsearch, x, hx, hpx⟩
        · rw [heq]; exact hst
        · exact Or.inr ⟨x, hx, by rw [hsearch]; exact hpx⟩
      · rw [if_neg h1]
        exact ⟨rfl, rfl, Or.inl rfl⟩

theorem searchInv_reach {α : Type} :
    ∀ (ks : List KeyResult) (st : SearchWrapper α),
      (st.search = [] ∨
        ∃ x ∈ st.items, st.search.isPrefixOf (st.looked_field x) = true) →
      (reach st ks).items = st.items ∧
      (reach st ks).looked_field = st.looked_field ∧
      ((reach st ks).search = [] ∨
        ∃ x ∈ st.items, (reach st ks).search.isPrefixOf (st.looked_field x) = true)
  | [], _, hst => ⟨rfl, rfl, hst⟩
  | k :: ks, st, hst => by
    obtain ⟨hitems, hfield, hinv⟩ := searchInv_keypress st k hst
    have hstep : reach st (k :: ks) = reach (st.keypress k).1 ks := rfl
    obtain ⟨hitems', hfield', hinv'⟩ :=
      searchInv_reach ks (st.keypress k).1 (by rw [hitems, hfield]; exact hinv)
    rw [hstep]
    refine ⟨hitems'.trans hitems, hfield'.trans hfield, ?_⟩
    rw [hitems, hfield] at hinv'
    exact hinv'

/-- C9: over a fixed collection, starting from the freshly constructed wrapper
(empty search), after any sequence of keypress events the search is either
empty or a prefix of the label of at least one item: the wrapper never commits
a prefix with no match. -/
theorem C9_search_invariant {α : Type} (items : List α) (f : α → List Char)
    (ks : List KeyResult) :
    (reach (mkWrapper items f) ks).search = [] ∨
      ∃ x ∈ items, (reach (mkWrapper items f) ks).search.isPrefixOf (f x) = true :=
  (searchInv_reach ks (mkWrapper items f) (Or.inl rfl)).2.2

/-! ## Claim C10: keypress return values -/

/-- C10: for a key not consumed by the wrapped widget, `keypress` returns
`None` (key consumed) for `'backspace'` and for every one-character key —
including rejected or no-op strokes, which fall through the `if` chain without
a `return` — and returns the key unchanged, after resetting the search to
empty, for every other named key. -/
theorem C10_keypress_return {α : Type} (st : SearchWrapper α) (k : List Char) :
    ((k = backspaceKey ∨ k.length = 1) → (st.keypress (KeyResult.key k)).2 = none) ∧
    (k ≠ backspaceKey → k.length ≠ 1 →
      (st.keypress (KeyResult.key k)).2 = some k ∧
      (st.keypress (KeyResult.key k)).1.search = []) := by
  constructor
  · rintro (rfl | h1)
    · rw [keypress_backspace]
    · rw [SearchWrapper.keypress]
      by_cases hb : k = backspaceKey
      · rw [if_pos hb]
      · rw [if_neg hb, if_pos h1]
  · intro hb h1
    rw [SearchWrapper.keypress, if_neg hb, if_neg h1]
    exact ⟨rfl, rfl⟩

/-- C10 witness: a one-character key and `'escape'` on the doctest wrapper. -/
theorem C10_witness :
    ((['x'] = backspaceKey ∨ (['x'] : List Char).length = 1) ∧
      (demoWrapper.keypress (KeyResult.key ['x'])).2 = none) ∧
    (String.toList "escape" ≠ backspaceKey ∧ (String.toList "escape").length ≠ 1 ∧
      (demoWrapper.keypress (KeyResult.key (String.toList "escape"))).2
          = some (String.toList "escape") ∧
      (demoWrapper.keypress (KeyResult.key (String.toList "escape"))).1.search = []) :=
  ⟨⟨Or.inr rfl, (C10_keypress_return demoWrapper ['x']).1 (Or.inr rfl)⟩,
   ⟨by decide, by decide,
    (C10_keypress_return demoWrapper (String.toList "escape")).2 (by decide) (by decide)⟩⟩

/-! ## Sanity check mirroring the doctest in wrapper.py -/

example :
    (reach demoWrapper [KeyResult.key ['b']]).focus = 3 ∧
    (reach demoWrapper [KeyResult.key ['b'], KeyResult.key ['b']]).focus = 3 ∧
    (reach demoWrapper [KeyResult.key ['b'], KeyResult.key ['b']]).search = ['b'] ∧
    (reach demoWrapper [KeyResult.key ['b'], KeyResult.key ['b'],
      KeyResult.key (String.toList "escape"), KeyResult.key ['a']]).focus = 0 ∧
    (reach demoWrapper [KeyResult.key ['b'], KeyResult.key ['b'],
      KeyResult.key (String.toList "escape"), KeyResult.key ['a'],
      KeyResult.key ['a']]).focus = 1 := by
  decide

end UrwidExtended
